import Mathlib

/-!
Verification development for the `advanced-context-menu-manager` scripts
repository.  The Windows registry (accessed through `winreg`) is modelled as
a finite tree of keys: a key is the list of its path components (the source
manipulates key paths as backslash-joined strings; here a key is the list of
the backslash-split components), each key may carry named string values, and
an environment field `denied` lists keys on which the OS raises an access
error when they are created, opened or deleted (`winreg` calls on other keys
always succeed in this model).  `winreg.CreateKey` creates every missing
intermediate key of the requested path, `winreg.DeleteKey` fails when the key
is absent or still has subkeys, and `winreg.SetValueEx` overwrites the named
value of an (open, hence existing) key.
-/

structure RegStore where
  keys : List (List String)
  vals : List (List String × String × String)
  denied : List (List String)
deriving DecidableEq

/-- Key membership: the enumerable set of keys of the store. -/
def RegStore.hasKey (s : RegStore) (k : List String) : Bool :=
  s.keys.contains k

/-- Named value attached to a key (`""` is the default value). -/
def RegStore.getVal (s : RegStore) (k : List String) (n : String) : Option String :=
  (s.vals.find? (fun e => e.1 == k && e.2.1 == n)).map (fun e => e.2.2)

/-- Does the key have a subkey (some existing key strictly extends it)?
This is what `winreg.EnumKey(key, 0)` succeeding means, and what makes
`winreg.DeleteKey` fail. -/
def RegStore.hasChildKey (s : RegStore) (k : List String) : Bool :=
  s.keys.any (fun k2 => k.isPrefixOf k2 && k2 != k)

/-- Insert a single key if absent. -/
def RegStore.insKey (s : RegStore) (k : List String) : RegStore :=
  if s.keys.contains k then s else { s with keys := k :: s.keys }

/-- All nonempty prefixes of a key path, shortest first. -/
def keyPrefixes (k : List String) : List (List String) :=
  (List.range k.length).map (fun i => k.take (i + 1))

/-- `winreg.CreateKey`: create the key and every missing intermediate key. -/
def RegStore.createKey (s : RegStore) (k : List String) : RegStore :=
  (keyPrefixes k).foldl RegStore.insKey s

/-- `winreg.SetValueEx`: set (overwrite) the named value of a key. -/
def RegStore.setVal (s : RegStore) (k : List String) (n v : String) : RegStore :=
  { s with vals := (k, n, v) :: s.vals.filter (fun e => !(e.1 == k && e.2.1 == n)) }

/-- Remove a key and its values (the success case of `winreg.DeleteKey`). -/
def RegStore.removeKey (s : RegStore) (k : List String) : RegStore :=
  { s with
    keys := s.keys.filter (fun k2 => k2 != k)
    vals := s.vals.filter (fun e => e.1 != k) }

/-- `winreg.DeleteKey` wrapped in the source's `try/except: pass`: the delete
succeeds when the key exists, has no subkeys and is not denied; any failure
is swallowed, leaving the store unchanged. -/
def RegStore.deleteKeyTry (s : RegStore) (k : List String) : RegStore :=
  if s.hasKey k && !s.hasChildKey k && !s.denied.contains k then s.removeKey k else s

/-- One `winreg` write of `ContextMenuRegistry.add_menu_item`, in source
order: a `CreateKey` or a `SetValueEx`. -/
inductive RegOp where
  | createK : List String → RegOp
  | setV : List String → String → String → RegOp
deriving DecidableEq

/-- Does this operation raise in the given denial environment?
(`CreateKey` raises on a denied key; `SetValueEx` on an open key does not.) -/
def opFails (d : List (List String)) : RegOp → Bool
  | .createK k => d.contains k
  | .setV _ _ _ => false

/-- Effect of one successful operation on the store. -/
def applyPure (s : RegStore) : RegOp → RegStore
  | .createK k => s.createKey k
  | .setV k n v => s.setVal k n v

/-- Run a sequence of `winreg` calls; the first raising call aborts the rest
(the exception propagates to `add_menu_item`'s outer `except`, which returns
`False`), and writes already performed are kept. -/
def applyOpsE : List RegOp → RegStore → RegStore × Bool
  | [], s => (s, true)
  | op :: rest, s =>
    if opFails s.denied op then (s, false) else applyOpsE rest (applyPure s op)

/-- `add_menu_item`'s registry base key for a context type:
`Directory\shell`, `*\shell`, or `<context>\shell`. -/
def baseKey (ct : String) : List String :=
  if ct == "directory" then ["Directory", "shell"]
  else if ct == "file" then ["*", "shell"]
  else [ct, "shell"]

/-- The `winreg` calls `add_menu_item` makes for the intermediate path
components (all but the last): for each component it creates the submenu key,
sets `MUIVerb` and `subcommands`, on the first component also creates the
`shell` subkey explicitly, and then descends into `<submenu>\shell`.
Returns the operations together with the final accumulated key path. -/
def addInterOps (keyPath : List String) : List String → Bool → List RegOp × List String
  | [], _ => ([], keyPath)
  | c :: rest, first =>
    let sub := keyPath ++ [c]
    let shellOps := if first then [RegOp.createK (sub ++ ["shell"])] else []
    let r := addInterOps (sub ++ ["shell"]) rest false
    ([RegOp.createK sub, RegOp.setV sub "MUIVerb" c, RegOp.setV sub "subcommands" ""]
       ++ shellOps ++ r.1, r.2)

/-- Python truthiness of an optional string (`None` and `""` are falsy). -/
def optTruthy : Option String → Bool
  | none => false
  | some s => s != ""

/-- The full `winreg` call sequence of `ContextMenuRegistry.add_menu_item` on
a nonempty component list: the intermediate-component loop, then the leaf
command key with its default value, the optional `Icon` value, and the
`command` subkey holding the command line. -/
def addOps (ct : String) (comps : List String) (cmd : String) (icon : Option String) :
    List RegOp :=
  let r := addInterOps (baseKey ct) comps.dropLast true
  let lastC := comps.getLastD ""
  let cmdKey := r.2 ++ [lastC]
  r.1 ++ [RegOp.createK cmdKey, RegOp.setV cmdKey "" lastC]
    ++ (if optTruthy icon then [RegOp.setV cmdKey "Icon" (icon.getD "")] else [])
    ++ [RegOp.createK (cmdKey ++ ["command"]), RegOp.setV (cmdKey ++ ["command"]) "" cmd]

/-- `ContextMenuRegistry.add_menu_item(context_type, menu_path, command, icon)`
on the backslash-split components of `menu_path`.  An empty component list
makes `path_components[-1]` raise before any registry write, so the outer
`except` returns `False` with the store untouched. -/
def addMenuItem (ct : String) (comps : List String) (cmd : String) (icon : Option String)
    (s : RegStore) : RegStore × Bool :=
  if comps.isEmpty then (s, false)
  else applyOpsE (addOps ct comps cmd icon) s

/-- The key path `remove_menu_item` accumulates over the intermediate
components: it appends `shell` only after the FIRST component (unlike the
add path, which descends through `shell` after every component). -/
def removeKeyPathAcc (base : List String) (inter : List String) : List String :=
  match inter with
  | [] => base
  | c :: rest => rest.foldl (fun acc d => acc ++ [d]) (base ++ [c, "shell"])

/-- The backwards cleanup loop of `remove_menu_item`
(`for i in range(len(path_components) - 1, 0, -1)`): at loop index `i` it
rebuilds the parent path from the first `i` components (again inserting
`shell` only after the first one) and tries to delete it, stopping at the
first delete that fails. -/
def pruneParents (base : List String) (inter : List String) : Nat → RegStore → RegStore
  | 0, s => s
  | i + 1, s =>
    let pp := removeKeyPathAcc base (inter.take (i + 1))
    if s.hasKey pp && !s.hasChildKey pp && !s.denied.contains pp then
      pruneParents base inter i (s.removeKey pp)
    else s

/-- `ContextMenuRegistry.remove_menu_item(context_type, menu_path)` on the
backslash-split components of `menu_path`: delete the `command` subkey and
the command key (each in `try/except: pass`), then, if the accumulated parent
key exists and has no subkeys, walk the cleanup loop deleting empty parents
bottom-up.  Always returns `True` on a nonempty path (every registry failure
is swallowed); an empty path raises at `path_components[-1]` and returns
`False`. -/
def removeMenuItem (ct : String) (comps : List String) (s : RegStore) : RegStore × Bool :=
  if comps.isEmpty then (s, false)
  else
    let base := baseKey ct
    let inter := comps.dropLast
    let lastC := comps.getLastD ""
    let keyPath := removeKeyPathAcc base inter
    let cmdKey := keyPath ++ [lastC]
    let s1 := RegStore.deleteKeyTry s (cmdKey ++ ["command"])
    let s2 := RegStore.deleteKeyTry s1 cmdKey
    let s3 :=
      if s2.hasKey keyPath && !s2.denied.contains keyPath then
        if s2.hasChildKey keyPath then s2
        else pruneParents base inter inter.length s2
      else s2
    (s3, true)

/-- The empty registry store with no denied keys. -/
def emptyStore : RegStore := ⟨[], [], []⟩

/-- Run the successful operations only (the pure write effect of a prefix of
an operation sequence). -/
def applyPureList (ops : List RegOp) (s : RegStore) : RegStore :=
  ops.foldl applyPure s

/-- All keys that the `CreateKey` calls of an operation sequence create,
including the implicitly created intermediate keys. -/
def opsCreatedKeys : List RegOp → List (List String)
  | [] => []
  | .createK k :: rest => keyPrefixes k ++ opsCreatedKeys rest
  | .setV _ _ _ :: rest => opsCreatedKeys rest

/-- The `SetValueEx` writes of an operation sequence, later writes first (so
that a front-to-back search returns the surviving write). -/
def opsWritesRev : List RegOp → List (List String × String × String)
  | [] => []
  | .createK _ :: rest => opsWritesRev rest
  | .setV k n v :: rest => opsWritesRev rest ++ [(k, n, v)]

/-- The operations actually executed before the first raising one. -/
def opsUntilFail (d : List (List String)) : List RegOp → List RegOp
  | [] => []
  | op :: rest => if opFails d op then [] else op :: opsUntilFail d rest

/-!
Catalog model: the `categories` / `scripts` / `python_path` configuration
owned by `ScriptManager`, and the operations of `ScriptManager` and
`AdvancedContextMenuGUI` the claims are about.  File-system side effects
(copying script/icon artifacts, writing `config.json`) are not observable in
the claims; persistence is modelled by the returned configuration.  The
fresh `uuid.uuid4()` of `add_script` is passed in as the `sid` parameter.
`scripts_dir` and `launcher_path` (instance fields derived from `APPDATA`)
are passed as the `sd` and `lp` parameters.
-/

structure Category where
  id : String
  name : String
  parent : Option String
deriving DecidableEq

structure Script where
  id : String
  name : String
  category : Option String
  filename : String
  contexts : List String
  icon : Option String
deriving DecidableEq

structure Config where
  categories : List Category
  scripts : List Script
  pythonPath : String
deriving DecidableEq

/-- `ScriptManager.get_category_path`, with an explicit recursion budget:
the Python function recurses on the parent id with no revisit detection, so
it is embedded fuelled, `none` marking fuel exhaustion (where the Python
recursion would still be descending).  On every input on which the Python
recursion terminates it does so within `categories.length + 1` calls, so the
fuel used by `getCategoryPath` below is never exhausted there. -/
def getCategoryPathF (cats : List Category) : Nat → Option String → Option String
  | 0, _ => none
  | _ + 1, none => some "ScriptTools"
  | fuel + 1, some s =>
    if s == "" then some "ScriptTools"
    else
      match cats.find? (fun c => c.id == s) with
      | none => some "ScriptTools"
      | some cat =>
        if optTruthy cat.parent then
          (getCategoryPathF cats fuel cat.parent).map (fun pp => pp ++ "\\" ++ cat.name)
        else some ("ScriptTools\\" ++ cat.name)

/-- `get_category_path` with the always-sufficient fuel. -/
def getCategoryPath (cats : List Category) (cid : Option String) : String :=
  (getCategoryPathF cats (cats.length + 1) cid).getD "ScriptTools"

/-- The menu path string `f"{category_path}\\{script['name']}"` built by
`_create_registry_entries` / `_remove_registry_entries`. -/
def menuPathStr (cats : List Category) (scr : Script) : String :=
  getCategoryPath cats scr.category ++ "\\" ++ scr.name

/-- Python `str.split(sep)` for a one-character separator, over the
character list of the string. -/
def splitChars (sep : Char) : List Char → String → List String
  | [], acc => [acc]
  | c :: cs, acc =>
    if c = sep then acc :: splitChars sep cs "" else splitChars sep cs (acc.push c)

/-- Python `str.split(sep)` for a one-character separator. -/
def pySplit (s : String) (sep : Char) : List String := splitChars sep s.data ""

/-- The components `menu_path.split('\\')` that `add_menu_item` and
`remove_menu_item` operate on. -/
def menuPathComps (cats : List Category) (scr : Script) : List String :=
  pySplit (menuPathStr cats scr) '\\'

/-- The extension part of `os.path.splitext` for ordinary file names
(everything from the last dot on; empty when there is no dot). -/
def extOf (p : String) : String :=
  let parts := pySplit p '.'
  if parts.length ≤ 1 then "" else "." ++ parts.getLastD ""

/-- The launcher command string
`f'"{python_path}" "{launcher_path}" "{script_path}" "%1"'`. -/
def launcherCmd (sd lp : String) (cfg : Config) (scr : Script) : String :=
  "\"" ++ cfg.pythonPath ++ "\" \"" ++ lp ++ "\" \"" ++ (sd ++ "\\" ++ scr.filename)
    ++ "\" \"%1\""

/-- The icon path passed to `add_menu_item` (the stored icon file joined
onto the scripts directory, or `None`). -/
def scriptIconPath (sd : String) (scr : Script) : Option String :=
  match scr.icon with
  | some ic => if ic == "" then none else some (sd ++ "\\" ++ ic)
  | none => none

/-- `ScriptManager._create_registry_entries`: one `add_menu_item` call per
context of the script, on the menu path resolved from the given catalog
state; the boolean results are discarded. -/
def createRegistryEntries (sd lp : String) (cfg : Config) (scr : Script)
    (st : RegStore) : RegStore :=
  scr.contexts.foldl
    (fun s ctx =>
      (addMenuItem ctx (menuPathComps cfg.categories scr) (launcherCmd sd lp cfg scr)
        (scriptIconPath sd scr) s).1) st

/-- `ScriptManager._remove_registry_entries`: one `remove_menu_item` call
per context, on the menu path resolved from the given catalog state. -/
def removeRegistryEntries (cfg : Config) (scr : Script) (st : RegStore) : RegStore :=
  scr.contexts.foldl
    (fun s ctx => (removeMenuItem ctx (menuPathComps cfg.categories scr) s).1) st

/-- In-place mutation of the first script record with the given id. -/
def replaceFirstScript : List Script → String → Script → List Script
  | [], _, _ => []
  | s :: rest, sid, new =>
    if s.id == sid then new :: rest else s :: replaceFirstScript rest sid new

/-- In-place mutation of the first category record with the given id
(`save_category` sets both `name` and `parent`). -/
def replaceFirstCat : List Category → String → String → String → List Category
  | [], _, _, _ => []
  | c :: rest, cid, nm, pid =>
    if c.id == cid then { c with name := nm, parent := some pid } :: rest
    else c :: replaceFirstCat rest cid nm pid

/-- The field updates of `update_script`: each optional argument is applied
only when truthy (Python `if name:` etc.; an empty string or empty context
list is skipped), and a truthy icon path stores an id-derived icon file
name. -/
def applyScriptUpdates (scr : Script) (nm catId : Option String)
    (ctxs : Option (List String)) (iconPath : Option String) : Script :=
  let s1 := if optTruthy nm then { scr with name := nm.getD scr.name } else scr
  let s2 := if optTruthy catId then { s1 with category := catId } else s1
  let s3 :=
    match ctxs with
    | some l => if l.isEmpty then s2 else { s2 with contexts := l }
    | none => s2
  if optTruthy iconPath then
    { s3 with icon := some (scr.id ++ "_icon" ++ extOf (iconPath.getD "")) }
  else s3

/-- `ScriptManager.update_script`: find the script (returning `False` when
absent), remove the registry entries of the pre-update record, mutate the
record, persist, then create the registry entries of the post-update
record. -/
def updateScript (sd lp : String) (cfg : Config) (st : RegStore) (sid : String)
    (nm catId : Option String) (ctxs : Option (List String)) (iconPath : Option String) :
    Config × RegStore × Bool :=
  match cfg.scripts.find? (fun s => s.id == sid) with
  | none => (cfg, st, false)
  | some scr =>
    let st1 := removeRegistryEntries cfg scr st
    let scr2 := applyScriptUpdates scr nm catId ctxs iconPath
    let cfg1 := { cfg with scripts := replaceFirstScript cfg.scripts sid scr2 }
    let st2 := createRegistryEntries sd lp cfg1 scr2 st1
    (cfg1, st2, true)

/-- `ScriptManager.add_script`: build the id-derived artifact names, append
the record to the catalog, persist, then create the registry entries; the
booleans of the underlying adds are never inspected and the fresh id is
returned unconditionally. -/
def addScript (sd lp : String) (cfg : Config) (st : RegStore) (sid scriptPath nm : String)
    (catId : Option String) (ctxs : List String) (iconPath : Option String) :
    Config × RegStore × String :=
  let destFilename := sid ++ extOf scriptPath
  let iconFilename : Option String :=
    if optTruthy iconPath then some (sid ++ "_icon" ++ extOf (iconPath.getD "")) else none
  let info : Script := ⟨sid, nm, catId, destFilename, ctxs, iconFilename⟩
  let cfg1 := { cfg with scripts := cfg.scripts ++ [info] }
  let st1 := createRegistryEntries sd lp cfg1 info st
  (cfg1, st1, sid)

/-- `ScriptManager.remove_script`: find the script (returning `False` when
absent), remove its registry entries under the current (pre-delete) catalog
state, delete its artifacts, drop it from the catalog, persist. -/
def removeScript (cfg : Config) (st : RegStore) (sid : String) : Config × RegStore × Bool :=
  match cfg.scripts.find? (fun s => s.id == sid) with
  | none => (cfg, st, false)
  | some scr =>
    let st1 := removeRegistryEntries cfg scr st
    let cfg1 := { cfg with scripts := cfg.scripts.filter (fun s => s.id != sid) }
    (cfg1, st1, true)

/-- `ScriptManager.remove_category`, fuelled against unbounded recursion
through cyclic parent chains (the Python recurses on subcategories with no
cycle guard): remove the scripts directly in the category (via
`remove_script`, which does the registry cleanup while the ancestor chain is
still intact), then recursively remove the direct subcategories, then drop
the category itself. -/
def removeCategoryF : Nat → Config → RegStore → String → Config × RegStore × Bool
  | 0, cfg, st, _ => (cfg, st, false)
  | fuel + 1, cfg, st, cid =>
    let toRemove := cfg.scripts.filter (fun s => s.category == some cid)
    let p1 := toRemove.foldl
      (fun (p : Config × RegStore) scr =>
        let r := removeScript p.1 p.2 scr.id
        (r.1, r.2.1)) (cfg, st)
    let subcats := p1.1.categories.filter (fun c => c.parent == some cid)
    let p2 := subcats.foldl
      (fun (p : Config × RegStore) sc =>
        let r := removeCategoryF fuel p.1 p.2 sc.id
        (r.1, r.2.1)) p1
    ({ p2.1 with categories := p2.1.categories.filter (fun c => c.id != cid) }, p2.2, true)

/-- `remove_category` with fuel sufficient for every acyclic catalog. -/
def removeCategory (cfg : Config) (st : RegStore) (cid : String) :
    Config × RegStore × Bool :=
  removeCategoryF (cfg.categories.length + 1) cfg st cid

/-- `AdvancedContextMenuGUI.save_category` after reading the GUI inputs:
on a nonempty category id and name, mutate the found category's `name` and
`parent`, save the config, and then for every script DIRECTLY in this
category call `_remove_registry_entries` followed by
`_create_registry_entries` — both against the already-mutated catalog. -/
def saveCategory (sd lp : String) (cfg : Config) (st : RegStore) (cid nm pid : String) :
    Config × RegStore :=
  if cid == "" then (cfg, st)
  else if nm == "" then (cfg, st)
  else
    match cfg.categories.find? (fun c => c.id == cid) with
    | none => (cfg, st)
    | some _ =>
      let cfg1 := { cfg with categories := replaceFirstCat cfg.categories cid nm pid }
      let st1 := cfg1.scripts.foldl
        (fun s scr =>
          if scr.category == some cid then
            createRegistryEntries sd lp cfg1 scr (removeRegistryEntries cfg1 scr s)
          else s) st
      (cfg1, st1)

/-- One step of the parent walk performed by `get_category_path`: from a
category id to the parent id it recurses on (`none` when the recursion
stops: id not found, or parent falsy). -/
def stepParent (cats : List Category) (s : String) : Option String :=
  match cats.find? (fun c => c.id == s) with
  | none => none
  | some c =>
    match c.parent with
    | none => none
    | some p => if p == "" then none else some p

/-- Iterated parent walk. -/
def iterStep (cats : List Category) : Nat → Option String → Option String
  | 0, x => x
  | n + 1, x => (iterStep cats n x).bind (stepParent cats)

/-- The continuation condition of `get_category_path` at a walk position:
the id is truthy, resolves to a category, and that category's parent is
truthy (so the recursion descends once more). -/
def contin (cats : List Category) (x : Option String) : Prop :=
  ∃ s c, x = some s ∧ s ≠ "" ∧ cats.find? (fun c2 => c2.id == s) = some c ∧
    optTruthy c.parent = true

/-- Concrete catalog exercising `save_category`: one root category "Tools"
(id `c1`) holding one script "Foo" registered for the `file` context. -/
def catTools : Category := ⟨"c1", "Tools", none⟩

def scrFoo : Script := ⟨"s1", "Foo", some "c1", "s1.py", ["file"], none⟩

def cfgTools : Config := ⟨[catTools], [scrFoo], "python"⟩

/-- The store after the initial registration of `scrFoo`. -/
def stTools : RegStore := createRegistryEntries "sd" "lp" cfgTools scrFoo emptyStore

/-- The registry leaf created for menu path `ScriptTools\Tools\Foo`. -/
def oldLeafTools : List String :=
  ["*", "shell", "ScriptTools", "shell", "Tools", "shell", "Foo"]

/-- The registry leaf for the post-rename menu path `ScriptTools\Utils\Foo`. -/
def newLeafUtils : List String :=
  ["*", "shell", "ScriptTools", "shell", "Utils", "shell", "Foo"]

/-- Concrete script/catalog used in the `update_script` witness. -/
def scrBar : Script := ⟨"s2", "Bar", none, "s2.py", ["file"], none⟩

def cfgBar : Config := ⟨[], [scrBar], "py"⟩

/-- Concrete two-category chain `A → B` (B's parent is A) for the cycle
claims. -/
def catA7 : Category := ⟨"a", "A", none⟩

def catB7 : Category := ⟨"b", "B", some "a"⟩

def cfgAB : Config := ⟨[catA7, catB7], [], "py"⟩

/-- Concrete script with both contexts for the partial-registration claim. -/
def infoPart : Script := ⟨"s1", "Foo", none, "s1.py", ["file", "directory"], none⟩

def cfgPart : Config := ⟨[], [infoPart], "py"⟩

def compsPart : List String := menuPathComps cfgPart.categories infoPart

def cmdPart : String := launcherCmd "sd" "lp" cfgPart infoPart

/-- Environment in which every `directory`-context registration fails at its
first key (`Directory\shell\ScriptTools` is denied) while `file`-context
registrations are unaffected. -/
def stDenPart : RegStore := ⟨[], [], [["Directory", "shell", "ScriptTools"]]⟩

/-- The store after the (successful) `file` registration in that
environment. -/
def afterFilePart : RegStore := (addMenuItem "file" compsPart cmdPart none stDenPart).1

theorem insKey_denied (s : RegStore) (k : List String) :
    (s.insKey k).denied = s.denied := by
  unfold RegStore.insKey; split <;> rfl

theorem insKey_vals (s : RegStore) (k : List String) :
    (s.insKey k).vals = s.vals := by
  unfold RegStore.insKey; split <;> rfl

theorem insKey_hasKey (s : RegStore) (k0 k : List String) :
    (s.insKey k0).hasKey k = (k == k0 || s.hasKey k) := by
  unfold RegStore.insKey RegStore.hasKey
  split
  · rename_i h
    cases hk : k == k0
    · simp
    · have hkk : k = k0 := by simpa using hk
      subst hkk
      rw [h]
      simp
  · show (k0 :: s.keys).contains k = _
    rw [List.contains_cons]

theorem foldlIns_denied (l : List (List String)) :
    ∀ s : RegStore, (l.foldl RegStore.insKey s).denied = s.denied := by
  induction l with
  | nil => intro s; rfl
  | cons a l ih => intro s; rw [List.foldl_cons, ih, insKey_denied]

theorem foldlIns_vals (l : List (List String)) :
    ∀ s : RegStore, (l.foldl RegStore.insKey s).vals = s.vals := by
  induction l with
  | nil => intro s; rfl
  | cons a l ih => intro s; rw [List.foldl_cons, ih, insKey_vals]

theorem foldlIns_hasKey (k : List String) (l : List (List String)) :
    ∀ s : RegStore, (l.foldl RegStore.insKey s).hasKey k = (l.contains k || s.hasKey k) := by
  induction l with
  | nil => intro s; simp
  | cons a l ih =>
    intro s
    rw [List.foldl_cons, ih, insKey_hasKey, List.contains_cons]
    cases k == a <;> cases l.contains k <;> simp

theorem createKey_denied (s : RegStore) (k : List String) :
    (s.createKey k).denied = s.denied := foldlIns_denied _ s

theorem createKey_vals (s : RegStore) (k : List String) :
    (s.createKey k).vals = s.vals := foldlIns_vals _ s

theorem createKey_hasKey (s : RegStore) (k0 k : List String) :
    (s.createKey k0).hasKey k = ((keyPrefixes k0).contains k || s.hasKey k) :=
  foldlIns_hasKey k _ s

theorem getVal_congr_vals {s t : RegStore} (h : s.vals = t.vals) (k : List String)
    (n : String) : s.getVal k n = t.getVal k n := by
  unfold RegStore.getVal; rw [h]

theorem setVal_denied (s : RegStore) (k0 : List String) (n0 v0 : String) :
    (s.setVal k0 n0 v0).denied = s.denied := rfl

theorem setVal_hasKey (s : RegStore) (k0 : List String) (n0 v0 : String) (k : List String) :
    (s.setVal k0 n0 v0).hasKey k = s.hasKey k := rfl

theorem find?_filter_keep {α : Type} (p q : α → Bool) (h : ∀ a, p a = true → q a = true) :
    ∀ l : List α, (l.filter q).find? p = l.find? p := by
  intro l
  induction l with
  | nil => rfl
  | cons a l ih =>
    cases hq : q a
    · have hp : p a = false := by
        cases hpa : p a
        · rfl
        · exact absurd (h a hpa) (by simp [hq])
      simp [List.filter_cons, hq, List.find?_cons, hp, ih]
    · cases hp : p a <;> simp [List.filter_cons, hq, List.find?_cons, hp, ih]

theorem setVal_getVal (s : RegStore) (k0 : List String) (n0 v0 : String) (k : List String)
    (n : String) :
    (s.setVal k0 n0 v0).getVal k n =
      if (k0 == k && n0 == n) then some v0 else s.getVal k n := by
  cases hm : (k0 == k && n0 == n)
  · have hkeep : ∀ e : List String × String × String,
        (fun e => e.1 == k && e.2.1 == n) e = true →
        (fun e => !(e.1 == k0 && e.2.1 == n0)) e = true := by
      intro e he
      simp only [Bool.and_eq_true, beq_iff_eq] at he
      obtain ⟨h1, h2⟩ := he
      simp only [h1, h2]
      cases hkk : k == k0
      · simp
      · have hk' : k = k0 := by simpa using hkk
        subst hk'
        cases hnn : n == n0
        · simp
        · have hn' : n = n0 := by simpa using hnn
          subst hn'
          simp at hm
    unfold RegStore.setVal RegStore.getVal
    simp only [List.find?_cons, hm]
    rw [if_neg (by simp [hm])]
    rw [find?_filter_keep _ _ hkeep]
  · unfold RegStore.setVal RegStore.getVal
    simp only [List.find?_cons, hm]
    simp

/-- The writes of a sequence of pure operations only change `vals` through
`setVal` and `keys` through `createKey`; `denied` never changes. -/
theorem applyPure_denied (s : RegStore) (op : RegOp) :
    (applyPure s op).denied = s.denied := by
  cases op with
  | createK k => exact createKey_denied s k
  | setV k n v => rfl

theorem applyPureList_denied (P : List RegOp) :
    ∀ s : RegStore, (applyPureList P s).denied = s.denied := by
  induction P with
  | nil => intro s; rfl
  | cons op P ih =>
    intro s
    show (applyPureList P (applyPure s op)).denied = s.denied
    rw [ih, applyPure_denied]

theorem contains_append_or {α : Type} [BEq α] (l₁ l₂ : List α) (a : α) :
    (l₁ ++ l₂).contains a = (l₁.contains a || l₂.contains a) := by
  induction l₁ with
  | nil => simp
  | cons b l ih => simp [List.contains_cons, ih, Bool.or_assoc]

theorem applyPureList_hasKey (k : List String) (P : List RegOp) :
    ∀ s : RegStore,
      (applyPureList P s).hasKey k = ((opsCreatedKeys P).contains k || s.hasKey k) := by
  induction P with
  | nil => intro s; simp [applyPureList, opsCreatedKeys]
  | cons op P ih =>
    intro s
    cases op with
    | createK k0 =>
      show (applyPureList P (s.createKey k0)).hasKey k = _
      rw [ih, createKey_hasKey, opsCreatedKeys, contains_append_or]
      cases (keyPrefixes k0).contains k <;> cases (opsCreatedKeys P).contains k <;> simp
    | setV k0 n0 v0 =>
      show (applyPureList P (s.setVal k0 n0 v0)).hasKey k = _
      rw [ih, setVal_hasKey, opsCreatedKeys]

theorem applyPureList_getVal (k : List String) (n : String) (P : List RegOp) :
    ∀ s : RegStore,
      (applyPureList P s).getVal k n =
        (((opsWritesRev P).find? (fun e => e.1 == k && e.2.1 == n)).map
          (fun e => e.2.2)).or (s.getVal k n) := by
  induction P with
  | nil => intro s; simp [applyPureList, opsWritesRev]
  | cons op P ih =>
    intro s
    cases op with
    | createK k0 =>
      show (applyPureList P (s.createKey k0)).getVal k n = _
      rw [ih, getVal_congr_vals (createKey_vals s k0) k n, opsWritesRev]
    | setV k0 n0 v0 =>
      show (applyPureList P (s.setVal k0 n0 v0)).getVal k n = _
      rw [ih, setVal_getVal, opsWritesRev, List.find?_append]
      cases hf : (opsWritesRev P).find? (fun e => e.1 == k && e.2.1 == n)
      · cases hm : ((k0, n0, v0).1 == k && (k0, n0, v0).2.1 == n)
        · simp only at hm
          simp [List.find?_cons, hm, Option.or]
        · simp only at hm
          simp [List.find?_cons, hm, Option.or]
      · simp [Option.or]

theorem applyOpsE_eq (ops : List RegOp) :
    ∀ s : RegStore,
      applyOpsE ops s =
        (applyPureList (opsUntilFail s.denied ops) s,
          ops.all (fun op => !opFails s.denied op)) := by
  induction ops with
  | nil => intro s; rfl
  | cons op rest ih =>
    intro s
    show (if opFails s.denied op then (s, false) else applyOpsE rest (applyPure s op)) = _
    cases hf : opFails s.denied op
    · rw [if_neg (by simp [hf])]
      rw [ih, applyPure_denied]
      simp [opsUntilFail, hf, applyPureList, List.all_cons]
    · rw [if_pos rfl]
      simp [opsUntilFail, hf, applyPureList, List.all_cons]

/-- Two stores with the same enumerable set of keys and the same values. -/
def RegStore.sameContent (s t : RegStore) : Prop :=
  (∀ k, s.hasKey k = t.hasKey k) ∧ (∀ k n, s.getVal k n = t.getVal k n)

/-- C5: calling `add_menu_item` twice with identical
`(contextClass, pathSegments, command, icon)` leaves the menu store with the
same enumerable set of keys and the same values as calling it once, for every
starting store (including stores where some key operations are denied, in
which case both calls abort at the same operation with the same partial
writes). -/
theorem addMenuItem_idempotent (ct : String) (comps : List String) (cmd : String)
    (icon : Option String) (s : RegStore) :
    RegStore.sameContent
      ((addMenuItem ct comps cmd icon (addMenuItem ct comps cmd icon s).1).1)
      ((addMenuItem ct comps cmd icon s).1) := by
  unfold addMenuItem
  cases he : comps.isEmpty
  · simp only [he, Bool.false_eq_true, if_false]
    have h1 : (applyOpsE (addOps ct comps cmd icon) s).1
        = applyPureList (opsUntilFail s.denied (addOps ct comps cmd icon)) s := by
      rw [applyOpsE_eq]
    rw [h1]
    have hd : (applyPureList (opsUntilFail s.denied (addOps ct comps cmd icon)) s).denied
        = s.denied := applyPureList_denied _ s
    have h2 : (applyOpsE (addOps ct comps cmd icon)
          (applyPureList (opsUntilFail s.denied (addOps ct comps cmd icon)) s)).1
        = applyPureList (opsUntilFail s.denied (addOps ct comps cmd icon))
            (applyPureList (opsUntilFail s.denied (addOps ct comps cmd icon)) s) := by
      rw [applyOpsE_eq, hd]
    rw [h2]
    constructor
    · intro k
      rw [applyPureList_hasKey, applyPureList_hasKey]
      cases hc : (opsCreatedKeys (opsUntilFail s.denied (addOps ct comps cmd icon))).contains k
          <;> simp [hc]
    · intro k n
      rw [applyPureList_getVal, applyPureList_getVal]
      cases hw : ((opsWritesRev (opsUntilFail s.denied (addOps ct comps cmd icon))).find?
          (fun e => e.1 == k && e.2.1 == n)).map (fun e => e.2.2) <;> simp [hw, Option.or]
  · simp only [he, if_true]
    exact ⟨fun k => rfl, fun k n => rfl⟩

/-- C1: on the path `["ScriptTools", "Tools", "Foo"]` (two intermediate
segments), `remove_menu_item` called right after `add_menu_item` with the
identical `(contextClass, pathSegments)` reports success yet does NOT delete
the leaf command node the add created: the add stores the leaf under
`*\shell\ScriptTools\shell\Tools\shell\Foo` (a `shell` level after every
intermediate segment) while the remove targets
`*\shell\ScriptTools\shell\Tools\Foo` (a `shell` level only after the first
segment), so the leaf and its `command` subkey survive the round trip. -/
theorem addThenRemove_leaves_deep_leaf :
    ((removeMenuItem "file" ["ScriptTools", "Tools", "Foo"]
        (addMenuItem "file" ["ScriptTools", "Tools", "Foo"] "cmd" none emptyStore).1).2
      = true) ∧
    (((removeMenuItem "file" ["ScriptTools", "Tools", "Foo"]
        (addMenuItem "file" ["ScriptTools", "Tools", "Foo"] "cmd" none emptyStore).1).1).hasKey
      ["*", "shell", "ScriptTools", "shell", "Tools", "shell", "Foo"] = true) ∧
    (((removeMenuItem "file" ["ScriptTools", "Tools", "Foo"]
        (addMenuItem "file" ["ScriptTools", "Tools", "Foo"] "cmd" none emptyStore).1).1).hasKey
      ["*", "shell", "ScriptTools", "shell", "Tools", "shell", "Foo", "command"] = true) := by
  decide

/-- C3: after `remove_menu_item("file", "ScriptTools\Foo")` following the
matching add, the intermediate group key `*\shell\ScriptTools` has no
remaining children, yet it is still present in the store: the cleanup loop
of `remove_menu_item` deletes the `shell` container below it but never the
first segment's group key itself, so an empty group survives the remove. -/
theorem remove_leaves_empty_first_group :
    (((removeMenuItem "file" ["ScriptTools", "Foo"]
        (addMenuItem "file" ["ScriptTools", "Foo"] "cmd" none emptyStore).1).1).hasKey
      ["*", "shell", "ScriptTools"] = true) ∧
    (((removeMenuItem "file" ["ScriptTools", "Foo"]
        (addMenuItem "file" ["ScriptTools", "Foo"] "cmd" none emptyStore).1).1).hasChildKey
      ["*", "shell", "ScriptTools"] = false) := by
  decide

/-- C2 (code bug): renaming category "Tools" (with one script "Foo" under
it) to "Utils" via `save_category` does NOT remove the registry entry at the
old resolved path `["ScriptTools","Tools","Foo"]`: `save_category` mutates
the category and saves the config BEFORE re-registering, so the
`_remove_registry_entries` call resolves the script against the
already-renamed catalog and removes at the NEW path (a no-op), leaving the
old leaf `*\shell\ScriptTools\shell\Tools\shell\Foo` in the store while the
new leaf is added. -/
theorem saveCategory_leaves_stale_old_path :
    (stTools.hasKey oldLeafTools = true) ∧
    ((saveCategory "sd" "lp" cfgTools stTools "c1" "Utils" "").2.hasKey oldLeafTools
      = true) ∧
    ((saveCategory "sd" "lp" cfgTools stTools "c1" "Utils" "").2.hasKey newLeafUtils
      = true) := by
  decide

/-- C9: for a category id that is falsy (`None` or the empty string) or that
matches no category in the catalog, `get_category_path` returns the fixed
root segment `"ScriptTools"` instead of failing, so a script holding a
dangling category id resolves to the root-level menu path
`ScriptTools\<name>`. -/
theorem getCategoryPath_dangling_returns_root (cats : List Category) (fuel : Nat)
    (cid : Option String)
    (h : cid = none ∨ cid = some "" ∨
      ∃ s, cid = some s ∧ cats.find? (fun c => c.id == s) = none) :
    getCategoryPathF cats (fuel + 1) cid = some "ScriptTools" ∧
    getCategoryPath cats cid = "ScriptTools" ∧
    ∀ scr : Script, scr.category = cid →
      menuPathStr cats scr = "ScriptTools" ++ "\\" ++ scr.name := by
  have h1 : ∀ f : Nat, getCategoryPathF cats (f + 1) cid = some "ScriptTools" := by
    intro f
    rcases h with h | h | ⟨s, hs, hf⟩
    · subst h; rfl
    · subst h; simp [getCategoryPathF]
    · subst hs
      cases hse : s == "" <;> simp [getCategoryPathF, hse, hf]
  have h2 : getCategoryPath cats cid = "ScriptTools" := by
    unfold getCategoryPath
    rw [h1 cats.length]
    rfl
  refine ⟨h1 fuel, h2, ?_⟩
  intro scr hc
  unfold menuPathStr
  rw [hc, h2]

theorem getCategoryPath_dangling_returns_root_witness :
    (((some "zz" : Option String) = none ∨ (some "zz" : Option String) = some "" ∨
      ∃ s, (some "zz" : Option String) = some s ∧
        ([⟨"c1", "Tools", none⟩] : List Category).find? (fun c => c.id == s) = none)) ∧
    (getCategoryPathF [⟨"c1", "Tools", none⟩] (0 + 1) (some "zz") = some "ScriptTools" ∧
     getCategoryPath [⟨"c1", "Tools", none⟩] (some "zz") = "ScriptTools" ∧
     ∀ scr : Script, scr.category = some "zz" →
       menuPathStr [⟨"c1", "Tools", none⟩] scr = "ScriptTools" ++ "\\" ++ scr.name) :=
  ⟨Or.inr (Or.inr ⟨"zz", rfl, by decide⟩),
   getCategoryPath_dangling_returns_root [⟨"c1", "Tools", none⟩] 0 (some "zz")
     (Or.inr (Or.inr ⟨"zz", rfl, by decide⟩))⟩

/-- C8 counterexample: with the script's contexts `["file", "directory"]`
and a store environment in which the `directory` registration fails at its
first key while the `file` registration succeeds, `add_script` returns
exactly the same catalog and the same plain script id as in the environment
where both registrations succeed — there is no `PartiallyRegistered` (or
any other) failure outcome visible to the caller, i.e. the partial failure
is reported as a silent success. -/
theorem addScript_partial_failure_silent :
    ((addMenuItem "file" compsPart cmdPart none stDenPart).2 = true) ∧
    ((addMenuItem "directory" compsPart cmdPart none afterFilePart).2 = false) ∧
    (addScript "sd" "lp" ⟨[], [], "py"⟩ stDenPart "s1" "foo.py" "Foo" none
        ["file", "directory"] none =
      (cfgPart, (addMenuItem "directory" compsPart cmdPart none afterFilePart).1, "s1")) ∧
    ((addScript "sd" "lp" ⟨[], [], "py"⟩ stDenPart "s1" "foo.py" "Foo" none
        ["file", "directory"] none).1 =
      (addScript "sd" "lp" ⟨[], [], "py"⟩ emptyStore "s1" "foo.py" "Foo" none
        ["file", "directory"] none).1) ∧
    ((addScript "sd" "lp" ⟨[], [], "py"⟩ stDenPart "s1" "foo.py" "Foo" none
        ["file", "directory"] none).2.2 =
      (addScript "sd" "lp" ⟨[], [], "py"⟩ emptyStore "s1" "foo.py" "Foo" none
        ["file", "directory"] none).2.2) := by
  decide

/-- C8 amended: `add_script` ignores the boolean results of the registry
`add` calls entirely: the returned script id and the resulting catalog (in
which the script is present) are the same for every starting store,
including stores in which some or all context registrations fail; no
partial-registration outcome is reported to the caller. -/
theorem addScript_ignores_registry_results (sd lp scriptPath nm : String)
    (cfg : Config) (st other : RegStore) (sid : String) (catId : Option String)
    (ctxs : List String) (iconPath : Option String) :
    (addScript sd lp cfg st sid scriptPath nm catId ctxs iconPath).2.2 = sid ∧
    (addScript sd lp cfg st sid scriptPath nm catId ctxs iconPath).1 =
      (addScript sd lp cfg other sid scriptPath nm catId ctxs iconPath).1 ∧
    (addScript sd lp cfg st sid scriptPath nm catId ctxs iconPath).1.scripts =
      cfg.scripts ++ [⟨sid, nm, catId, sid ++ extOf scriptPath, ctxs,
        if optTruthy iconPath then some (sid ++ "_icon" ++ extOf (iconPath.getD ""))
        else none⟩] :=
  ⟨rfl, rfl, rfl⟩

/-- C4: on an existing script id, `update_script` equals the composition
that first removes the registry entries computed from the PRE-update record
and catalog (old resolved path, old contexts) — before any field of the
record is mutated — then applies the field updates and replaces the record
in the persisted catalog, and only then adds the registry entries computed
from the POST-update record (new resolved path, new contexts). -/
theorem updateScript_remove_before_mutate_add_after
    (sd lp : String) (cfg : Config) (st : RegStore) (sid : String)
    (nm catId : Option String) (ctxs : Option (List String)) (iconPath : Option String)
    (scr : Script) (h : cfg.scripts.find? (fun s => s.id == sid) = some scr) :
    updateScript sd lp cfg st sid nm catId ctxs iconPath =
      ({ cfg with scripts := replaceFirstScript cfg.scripts sid (applyScriptUpdates scr nm catId ctxs iconPath) },
       (applyScriptUpdates scr nm catId ctxs iconPath).contexts.foldl
         (fun s ctx =>
           (addMenuItem ctx
             (menuPathComps cfg.categories (applyScriptUpdates scr nm catId ctxs iconPath))
             (launcherCmd sd lp cfg (applyScriptUpdates scr nm catId ctxs iconPath))
             (scriptIconPath sd (applyScriptUpdates scr nm catId ctxs iconPath)) s).1)
         (scr.contexts.foldl
           (fun s ctx => (removeMenuItem ctx (menuPathComps cfg.categories scr) s).1) st),
       true) := by
  unfold updateScript
  rw [h]
  rfl

theorem updateScript_remove_before_mutate_add_after_witness :
    (cfgBar.scripts.find? (fun s => s.id == "s2") = some scrBar) ∧
    updateScript "sd" "lp" cfgBar emptyStore "s2" (some "Baz") none none none =
      ({ cfgBar with scripts := replaceFirstScript cfgBar.scripts "s2" (applyScriptUpdates scrBar (some "Baz") none none none) },
       (applyScriptUpdates scrBar (some "Baz") none none none).contexts.foldl
         (fun s ctx =>
           (addMenuItem ctx
             (menuPathComps cfgBar.categories
               (applyScriptUpdates scrBar (some "Baz") none none none))
             (launcherCmd "sd" "lp" cfgBar
               (applyScriptUpdates scrBar (some "Baz") none none none))
             (scriptIconPath "sd" (applyScriptUpdates scrBar (some "Baz") none none none))
             s).1)
         (scrBar.contexts.foldl
           (fun s ctx => (removeMenuItem ctx (menuPathComps cfgBar.categories scrBar) s).1)
           emptyStore),
       true) :=
  ⟨by decide, updateScript_remove_before_mutate_add_after "sd" "lp" cfgBar emptyStore "s2"
      (some "Baz") none none none scrBar (by decide)⟩

/-- C7 counterexample: with categories `A → B` (B's parent is A, no
`CycleError` anywhere in the code), updating A with parent B through
`save_category` does not fail and does not leave the categories unchanged:
A's parent is mutated to B, creating a cyclic parent chain. -/
theorem saveCategory_mutates_despite_cycle :
    ((saveCategory "sd" "lp" cfgAB emptyStore "a" "A" "b").1 ≠ cfgAB) ∧
    ((saveCategory "sd" "lp" cfgAB emptyStore "a" "A" "b").1.categories =
      [⟨"a", "A", some "b"⟩, catB7]) := by
  decide

/-- C7 amended: `save_category` performs no cycle check: given `A → B` (B's
parent is A), updating A with parent B succeeds, persisting A's parent as B
(every other record unchanged) with no error outcome, and the resulting
catalog has a cyclic parent chain (walking two parent steps from A returns
to A).  Registry re-registration is attempted only for scripts directly in
A; when there are none, the store is untouched. -/
theorem saveCategory_no_cycle_check (sd lp pp nm : String) (A B : Category)
    (ss : List Script) (st : RegStore)
    (hA : A.id ≠ "") (hB : B.id ≠ "") (hAB : A.id ≠ B.id) (hnm : nm ≠ "")
    (hBp : B.parent = some A.id)
    (hs : ∀ x ∈ ss, x.category ≠ some A.id) :
    saveCategory sd lp ⟨[A, B], ss, pp⟩ st A.id nm B.id =
      (⟨[{ A with name := nm, parent := some B.id }, B], ss, pp⟩, st) ∧
    iterStep [{ A with name := nm, parent := some B.id }, B] 2 (some A.id) = some A.id := by
  have bA : (A.id == "") = false := beq_false_of_ne hA
  have bB : (B.id == "") = false := beq_false_of_ne hB
  have bAB : (A.id == B.id) = false := beq_false_of_ne hAB
  have bnm : (nm == "") = false := beq_false_of_ne hnm
  constructor
  · have hfold : ∀ (l : List Script) (s : RegStore) (g : RegStore → Script → RegStore),
        (∀ x ∈ l, x.category ≠ some A.id) →
        l.foldl (fun s scr => if scr.category == some A.id then g s scr else s) s = s := by
      intro l
      induction l with
      | nil => intro s g _; rfl
      | cons x l ih =>
        intro s g hx
        rw [List.foldl_cons]
        simp only [beq_false_of_ne (hx x (List.mem_cons_self x l)), Bool.false_eq_true,
          if_false]
        exact ih s g (fun y hy => hx y (List.mem_cons_of_mem x hy))
    simp only [saveCategory, bA, bnm, Bool.false_eq_true, if_false, List.find?_cons,
      beq_self_eq_true, replaceFirstCat, if_true]
    rw [hfold ss st _ hs]
  · simp [iterStep, stepParent, List.find?_cons, bAB, bA, bB, hBp, beq_self_eq_true,
      hA, hB, hAB, Option.bind]

/-- C6: cascade delete: for a catalog consisting of a root category `A`
holding script `S` and a subcategory `B` (parent `A`) holding script `T`,
`remove_category(A)` removes `S`, `T`, `B` and `A` from the catalog,
returning success, and the store receives exactly the per-script registry
removal (`_remove_registry_entries`) for `S` and then for `T`, both resolved
against the ORIGINAL catalog — descendant scripts and subcategories are
processed before the category itself is deleted, so every
`get_category_path` performed during child removal still sees the intact
ancestor chain: `S` is unregistered at `ScriptTools\<A>\<S>` and `T` at the
fully resolved `ScriptTools\<A>\<B>\<T>`. -/
theorem removeCategory_cascade (A B : Category) (S T : Script) (pp : String)
    (st : RegStore)
    (hA : A.id ≠ "") (hB : B.id ≠ "") (hAB : A.id ≠ B.id) (hST : S.id ≠ T.id)
    (hAp : A.parent = none) (hBp : B.parent = some A.id)
    (hS : S.category = some A.id) (hT : T.category = some B.id) :
    removeCategory ⟨[A, B], [S, T], pp⟩ st A.id =
      (⟨[], [], pp⟩,
       removeRegistryEntries ⟨[A, B], [S, T], pp⟩ T
         (removeRegistryEntries ⟨[A, B], [S, T], pp⟩ S st),
       true) ∧
    menuPathStr [A, B] S = "ScriptTools\\" ++ A.name ++ "\\" ++ S.name ∧
    menuPathStr [A, B] T = "ScriptTools\\" ++ A.name ++ "\\" ++ B.name ++ "\\" ++ T.name := by
  have bA : (A.id == "") = false := beq_false_of_ne hA
  have bB : (B.id == "") = false := beq_false_of_ne hB
  have bAB : (A.id == B.id) = false := beq_false_of_ne hAB
  have bBA : (B.id == A.id) = false := beq_false_of_ne (Ne.symm hAB)
  have bTS : (T.id == S.id) = false := beq_false_of_ne (Ne.symm hST)
  have hPA : ∀ fuel : Nat,
      getCategoryPathF [A, B] (fuel + 1) (some A.id) = some ("ScriptTools\\" ++ A.name) := by
    intro fuel
    simp [getCategoryPathF, bA, List.find?_cons, beq_self_eq_true, hAp, optTruthy]
  have hPB : ∀ fuel : Nat,
      getCategoryPathF [A, B] (fuel + 1 + 1) (some B.id)
        = some ("ScriptTools\\" ++ A.name ++ "\\" ++ B.name) := by
    intro fuel
    simp [getCategoryPathF, bB, bAB, List.find?_cons, beq_self_eq_true, hBp, optTruthy,
      bne, bA, hPA]
  have oSA : (S.category == some A.id) = true := by rw [hS]; exact beq_self_eq_true _
  have oTA : (T.category == some A.id) = false := by rw [hT]; exact bBA
  have oTB : (T.category == some B.id) = true := by rw [hT]; exact beq_self_eq_true _
  have oApA : (A.parent == some A.id) = false := by rw [hAp]; rfl
  have oApB : (A.parent == some B.id) = false := by rw [hAp]; rfl
  have oBpA : (B.parent == some A.id) = true := by rw [hBp]; exact beq_self_eq_true _
  have oBpB : (B.parent == some B.id) = false := by rw [hBp]; exact bAB
  refine ⟨?_, ?_, ?_⟩
  · have hRS : removeScript ⟨[A, B], [S, T], pp⟩ st S.id
        = (⟨[A, B], [T], pp⟩, removeRegistryEntries ⟨[A, B], [S, T], pp⟩ S st, true) := by
      simp only [removeScript, List.find?_cons, beq_self_eq_true, List.filter_cons,
        List.filter_nil, bne, bTS, Bool.not_true, Bool.not_false, Bool.false_eq_true,
        if_false, if_true, eq_self_iff_true]
    have hRT : ∀ st0 : RegStore, removeScript ⟨[A, B], [T], pp⟩ st0 T.id
        = (⟨[A, B], [], pp⟩, removeRegistryEntries ⟨[A, B], [T], pp⟩ T st0, true) := by
      intro st0
      simp only [removeScript, List.find?_cons, beq_self_eq_true, List.filter_cons,
        List.filter_nil, bne, Bool.not_true, Bool.false_eq_true, if_false, if_true,
        eq_self_iff_true]
    have hRB : ∀ (fuel : Nat) (st0 : RegStore),
        removeCategoryF (Nat.succ fuel) ⟨[A, B], [T], pp⟩ st0 B.id
          = (⟨[A], [], pp⟩, removeRegistryEntries ⟨[A, B], [T], pp⟩ T st0, true) := by
      intro fuel st0
      rw [removeCategoryF.eq_2]
      simp only [oTB, oApB, oBpB, List.filter_cons, List.filter_nil, List.foldl_cons,
        List.foldl_nil, if_true, if_false, Bool.false_eq_true, eq_self_iff_true, hRT,
        bne, bAB, Bool.not_false, beq_self_eq_true, Bool.not_true]
    have hRRT : removeRegistryEntries ⟨[A, B], [T], pp⟩ T
        = removeRegistryEntries ⟨[A, B], [S, T], pp⟩ T := rfl
    have hfuel : removeCategory (⟨[A, B], [S, T], pp⟩ : Config) st A.id
        = removeCategoryF (Nat.succ (Nat.succ (Nat.succ 0))) ⟨[A, B], [S, T], pp⟩ st A.id :=
      rfl
    rw [hfuel, removeCategoryF.eq_2]
    simp only [oSA, oTA, oApA, oBpA, List.filter_cons, List.filter_nil, List.foldl_cons,
      List.foldl_nil, if_true, if_false, Bool.false_eq_true, eq_self_iff_true, hRS, hRB,
      hRRT, bne, bAB, Bool.not_false, beq_self_eq_true, Bool.not_true]
  · unfold menuPathStr getCategoryPath
    rw [hS, hPA]
    rfl
  · unfold menuPathStr getCategoryPath
    rw [hT, show ([A, B] : List Category).length + 1 = 1 + 1 + 1 from rfl, hPB]
    rfl

theorem removeCategory_cascade_witness :
    (catA7.id ≠ "" ∧ catB7.id ≠ "" ∧ catA7.id ≠ catB7.id ∧
      ("s-a" : String) ≠ "s-b" ∧ catA7.parent = none ∧ catB7.parent = some catA7.id) ∧
    (removeCategory ⟨[catA7, catB7],
        [⟨"s-a", "Alpha", some "a", "a.py", ["file"], none⟩,
         ⟨"s-b", "Beta", some "b", "b.py", ["directory"], none⟩], "py"⟩ emptyStore catA7.id =
      (⟨[], [], "py"⟩,
       removeRegistryEntries ⟨[catA7, catB7],
           [⟨"s-a", "Alpha", some "a", "a.py", ["file"], none⟩,
            ⟨"s-b", "Beta", some "b", "b.py", ["directory"], none⟩], "py"⟩
         ⟨"s-b", "Beta", some "b", "b.py", ["directory"], none⟩
         (removeRegistryEntries ⟨[catA7, catB7],
             [⟨"s-a", "Alpha", some "a", "a.py", ["file"], none⟩,
              ⟨"s-b", "Beta", some "b", "b.py", ["directory"], none⟩], "py"⟩
           ⟨"s-a", "Alpha", some "a", "a.py", ["file"], none⟩ emptyStore),
       true) ∧
     menuPathStr [catA7, catB7] ⟨"s-a", "Alpha", some "a", "a.py", ["file"], none⟩ =
       "ScriptTools\\" ++ catA7.name ++ "\\" ++
         (⟨"s-a", "Alpha", some "a", "a.py", ["file"], none⟩ : Script).name ∧
     menuPathStr [catA7, catB7] ⟨"s-b", "Beta", some "b", "b.py", ["directory"], none⟩ =
       "ScriptTools\\" ++ catA7.name ++ "\\" ++ catB7.name ++ "\\" ++
         (⟨"s-b", "Beta", some "b", "b.py", ["directory"], none⟩ : Script).name) :=
  ⟨⟨by decide, by decide, by decide, by decide, by decide, by decide⟩,
   removeCategory_cascade catA7 catB7
     ⟨"s-a", "Alpha", some "a", "a.py", ["file"], none⟩
     ⟨"s-b", "Beta", some "b", "b.py", ["directory"], none⟩ "py" emptyStore
     (by decide) (by decide) (by decide) (by decide) (by decide) (by decide)
     (by decide) (by decide)⟩

theorem iterStep_succ_left (cats : List Category) (n : Nat) (x : Option String) :
    iterStep cats (n + 1) x = iterStep cats n (x.bind (stepParent cats)) := by
  induction n generalizing x with
  | zero => rfl
  | succ n ih =>
    show (iterStep cats (n + 1) x).bind (stepParent cats) = _
    rw [ih]
    rfl

theorem iterStep_add (cats : List Category) (a b : Nat) (x : Option String) :
    iterStep cats (a + b) x = iterStep cats b (iterStep cats a x) := by
  induction b with
  | zero => rfl
  | succ b ih =>
    show (iterStep cats (a + b) x).bind (stepParent cats)
      = (iterStep cats b (iterStep cats a x)).bind (stepParent cats)
    rw [ih]

theorem getCategoryPathF_none_step (cats : List Category) (m : Nat) (x : Option String)
    (h : getCategoryPathF cats (m + 1) x = none) :
    contin cats x ∧ getCategoryPathF cats m (x.bind (stepParent cats)) = none := by
  cases x with
  | none => simp [getCategoryPathF] at h
  | some s =>
    cases hse : s == ""
    · simp only [getCategoryPathF, hse, Bool.false_eq_true, if_false] at h
      cases hfind : cats.find? (fun c2 => c2.id == s) with
      | none => rw [hfind] at h; simp at h
      | some c =>
        rw [hfind] at h
        cases hp : optTruthy c.parent
        · simp [hp] at h
        · simp only [hp, if_true] at h
          rw [Option.map_eq_none'] at h
          have hsp : stepParent cats s = c.parent := by
            unfold stepParent
            rw [hfind]
            show (match c.parent with
              | none => none
              | some p => if p == "" then none else some p) = c.parent
            cases hcp : c.parent with
            | none => rfl
            | some p =>
              rw [hcp] at hp
              have hpne : (p == "") = false := by
                simp only [optTruthy] at hp
                simpa using hp
              simp [hpne]
          refine ⟨⟨s, c, rfl, by simpa using hse, hfind, hp⟩, ?_⟩
          rw [show (some s).bind (stepParent cats) = stepParent cats s from rfl, hsp]
          exact h
    · simp only [getCategoryPathF, hse, if_true] at h
      simp at h

theorem getCategoryPathF_none_contin (cats : List Category) :
    ∀ (m : Nat) (x : Option String), getCategoryPathF cats m x = none →
      ∀ j, j < m → contin cats (iterStep cats j x) := by
  intro m
  induction m with
  | zero => intro x _ j hj; exact absurd hj (Nat.not_lt_zero j)
  | succ m ih =>
    intro x h j hj
    obtain ⟨hc, hrec⟩ := getCategoryPathF_none_step cats m x h
    cases j with
    | zero => exact hc
    | succ j =>
      rw [iterStep_succ_left]
      exact ih (x.bind (stepParent cats)) hrec j (Nat.lt_of_succ_lt_succ hj)

/-- C10: for every catalog whose categories are acyclic (no category returns
to itself along its parent chain within `|categories|` steps) and whose
truthy parent ids all reference existing categories, `get_category_path`
terminates for every starting category id: the recursion depth never
exceeds `categories.length + 1` calls, so the fuelled embedding returns a
result at that fuel.  The recursion has no revisit detection, so it is the
acyclicity precondition that bounds the walk (via the pigeonhole on the
visited category ids). -/
theorem getCategoryPath_terminates_of_acyclic (cats : List Category)
    (hacyc : ∀ c ∈ cats, ∀ k, k < cats.length →
      iterStep cats (k + 1) (some c.id) ≠ some c.id)
    (_hpar : ∀ c ∈ cats, ∀ p, c.parent = some p → p ≠ "" → ∃ c2 ∈ cats, c2.id = p)
    (cid : Option String) :
    (getCategoryPathF cats (cats.length + 1) cid).isSome = true := by
  by_contra hno
  have hnone : getCategoryPathF cats (cats.length + 1) cid = none := by
    cases hg : getCategoryPathF cats (cats.length + 1) cid
    · rfl
    · rw [hg] at hno; simp at hno
  have hcont : ∀ j, j < cats.length + 1 → contin cats (iterStep cats j cid) :=
    getCategoryPathF_none_contin cats (cats.length + 1) cid hnone
  have hf : ∀ j ∈ Finset.range (cats.length + 1),
      (iterStep cats j cid).getD "" ∈ (cats.map Category.id).toFinset := by
    intro j hj
    rw [Finset.mem_range] at hj
    obtain ⟨s, c, hx, hs, hfind, hp⟩ := hcont j hj
    have hcmem : c ∈ cats := List.mem_of_find?_eq_some hfind
    have hcid : c.id = s := by simpa using List.find?_some hfind
    rw [hx]
    simp only [Option.getD_some]
    rw [List.mem_toFinset, ← hcid]
    exact List.mem_map_of_mem Category.id hcmem
  have hlt : ((cats.map Category.id).toFinset).card
      < (Finset.range (cats.length + 1)).card := by
    have h1 := List.toFinset_card_le (cats.map Category.id)
    rw [List.length_map] at h1
    rw [Finset.card_range]
    omega
  obtain ⟨i, hi, j, hj, hij, hfij⟩ :=
    Finset.exists_ne_map_eq_of_card_lt_of_maps_to hlt hf
  rw [Finset.mem_range] at hi hj
  have key : ∀ i2 j2 : Nat, i2 < j2 → j2 < cats.length + 1 →
      (iterStep cats i2 cid).getD "" = (iterStep cats j2 cid).getD "" → False := by
    intro i2 j2 hij2 hj2 hfe
    obtain ⟨s, c, hx, hs, hfind, hp⟩ := hcont i2 (by omega)
    obtain ⟨s2, c2, hx2, hs2, hfind2, hp2⟩ := hcont j2 hj2
    have hss : s2 = s := by
      rw [hx, hx2] at hfe
      simpa using hfe.symm
    have hcmem : c ∈ cats := List.mem_of_find?_eq_some hfind
    have hcid : c.id = s := by simpa using List.find?_some hfind
    have hcyc : iterStep cats (j2 - i2) (some s) = some s := by
      have hd : iterStep cats j2 cid = iterStep cats (j2 - i2) (iterStep cats i2 cid) := by
        rw [← iterStep_add]
        congr 1
        omega
      rw [hx] at hd
      rw [← hd, hx2, hss]
    have hk : j2 - i2 - 1 < cats.length := by omega
    have hone : j2 - i2 - 1 + 1 = j2 - i2 := by omega
    exact hacyc c hcmem (j2 - i2 - 1) hk (by rw [hone, hcid]; exact hcyc)
  rcases Nat.lt_or_ge i j with h2 | h2
  · exact key i j h2 hj hfij
  · have h3 : j < i := by omega
    exact key j i h3 hi hfij.symm

theorem getCategoryPath_terminates_of_acyclic_witness :
    ((∀ c ∈ ([catA7, catB7] : List Category), ∀ k,
        k < ([catA7, catB7] : List Category).length →
        iterStep [catA7, catB7] (k + 1) (some c.id) ≠ some c.id) ∧
     (∀ c ∈ ([catA7, catB7] : List Category), ∀ p, c.parent = some p → p ≠ "" →
        ∃ c2 ∈ ([catA7, catB7] : List Category), c2.id = p)) ∧
    (getCategoryPathF [catA7, catB7] (([catA7, catB7] : List Category).length + 1)
        (some "b")).isSome = true :=
  ⟨⟨by decide, by decide⟩,
   getCategoryPath_terminates_of_acyclic [catA7, catB7] (by decide) (by decide) (some "b")⟩

theorem saveCategory_no_cycle_check_witness :
    (catA7.id ≠ "" ∧ catB7.id ≠ "" ∧ catA7.id ≠ catB7.id ∧ ("A2" : String) ≠ "" ∧
      catB7.parent = some catA7.id ∧
      (∀ x ∈ ([] : List Script), x.category ≠ some catA7.id)) ∧
    (saveCategory "sd" "lp" ⟨[catA7, catB7], [], "py"⟩ emptyStore catA7.id "A2" catB7.id =
      (⟨[{ catA7 with name := "A2", parent := some catB7.id }, catB7], [], "py"⟩,
        emptyStore) ∧
     iterStep [{ catA7 with name := "A2", parent := some catB7.id }, catB7] 2
       (some catA7.id) = some catA7.id) :=
  ⟨⟨by decide, by decide, by decide, by decide, by decide, by decide⟩,
   saveCategory_no_cycle_check "sd" "lp" "py" "A2" catA7 catB7 [] emptyStore
     (by decide) (by decide) (by decide) (by decide) (by decide) (by decide)⟩
